import Mathlib

/-!
Verification of the ESPHome `i18n` translation-table compiler
(`components/i18n/__init__.py`) and of the C++ runtime it emits.

Strings are modelled as `List Char` (`Str`): a C string is identified with
the character sequence before its terminator, and a possibly-null C pointer
with `Option Str`.  Python dicts are modelled as insertion-ordered
association lists with unique keys (`dictInsert` mirrors `d[k] = v`:
replace in place when the key exists, append otherwise).  The two generated
artifacts `translations.h` / `translations.cpp` are modelled by their
information content (`GeneratedH`, `GeneratedCpp`); the emitted C++ runtime
functions are modelled as Lean functions over that content plus explicit
runtime state.
-/

namespace I18n

/-- A character string (the contents of a C string up to its terminator). -/
abbrev Str := List Char

/-- A flattened locale mapping: Python dict from dot-joined key to value. -/
abbrev FlatMap := List (Str × Str)

/-- `locales_map`: Python dict from locale identifier to flattened mapping. -/
abbrev LocalesMap := List (Str × FlatMap)

/-- Python dict assignment `d[k] = v`: replace the value in place when `k`
is already a key (keeping its position), append `(k, v)` otherwise. -/
def dictInsert {β : Type} : List (Str × β) → Str → β → List (Str × β)
  | [], k, v => [(k, v)]
  | (k', v') :: rest, k, v =>
      if k' = k then (k', v) :: rest else (k', v') :: dictInsert rest k v

/-- Python dict lookup `d[k]` / `d.get(k)`: value of the first entry whose
key equals `k`. -/
def alookup {β : Type} : List (Str × β) → Str → Option β
  | [], _ => none
  | (k', v) :: rest, k => if k' = k then some v else alookup rest k

/-- Python `k in d` on a flattened mapping. -/
def hasKey (m : FlatMap) (k : Str) : Bool := (alookup m k).isSome

/-- A node of a parsed YAML locale document: internal nodes are string-keyed
mappings, leaves are scalar values (already stringified, as `str(obj)` in
`_flatten_dict` does). -/
inductive YNode : Type where
  | leaf : Str → YNode
  | node : List (Str × YNode) → YNode

/-- The key built in `_flatten_dict`: the dot-join of the running path and
the child key, or the bare child key when the path is empty. -/
def mkChildKey (pre k : Str) : Str :=
  if pre = [] then k else pre ++ '.' :: k

mutual

/-- `_flatten_dict(prefix, obj, out)`: recursively flatten a nested node
into dot-joined keys, threading the output dict `out`. -/
def flatten_dict (pre : Str) (obj : YNode) (out : FlatMap) : FlatMap :=
  match obj with
  | .leaf s => dictInsert out pre s
  | .node ch => flatten_children pre ch out

/-- The `for k, v in obj.items()` loop inside `_flatten_dict`. -/
def flatten_children (pre : Str) (ch : List (Str × YNode)) (out : FlatMap) : FlatMap :=
  match ch with
  | [] => out
  | (k, v) :: rest => flatten_children pre rest (flatten_dict (mkChildKey pre k) v out)

end

/-- Python `set.add`-style insertion for a set modelled as a duplicate-free
list (insertion order is irrelevant because the set is only ever sorted). -/
def setInsert (s : List Str) (k : Str) : List Str :=
  if k ∈ s then s else s ++ [k]

/-- Python `all_keys_set.update(flat.keys())`. -/
def setUpdate (s : List Str) (ks : List Str) : List Str :=
  ks.foldl setInsert s

/-- The set of keys accumulated over a `locales_map`
(`all_keys_set.update(flat.keys())` for each locale, starting empty). -/
def keySet (lm : LocalesMap) : List Str :=
  lm.foldl (fun acc p => setUpdate acc (p.2.map Prod.fst)) []

/-- `all_keys = sorted(all_keys_set)` in `to_code`: the key universe of a
collection of flattened mappings.  The set list is duplicate-free, so the
sorted result is the unique sorted enumeration of the union, exactly what
Python's `sorted` returns. -/
def key_universe (lm : LocalesMap) : List Str :=
  List.insertionSort (· ≤ ·) (keySet lm)

/-- The keys of the universe missing from one locale's mapping:
`missing = [k for k in all_keys if k not in kv]`. -/
def locale_missing (all_keys : List Str) (kv : FlatMap) : List Str :=
  all_keys.filter (fun k => !(hasKey kv k))

/-- The aggregated validation report of `_gen_translations_cpp`
(lines 148–152): one entry per locale whose `missing` list is non-empty,
in `locales_map` iteration order, holding all of that locale's missing
keys. -/
def missing_report (lm : LocalesMap) (all_keys : List Str) : List (Str × List Str) :=
  lm.filterMap (fun p =>
    let missing := locale_missing all_keys p.2
    if missing.isEmpty then none else some (p.1, missing))

/-- The message of the `cv.Invalid` raised on a non-empty report: the
fixed heading, then one line per entry joining the locale, a colon and its
comma-separated missing keys. -/
def format_missing_report (r : List (Str × List Str)) : Str :=
  "Missing translations for keys:\n".toList ++
    List.intercalate "\n".toList
      (r.map (fun p => p.1 ++ ": ".toList ++ List.intercalate ", ".toList p.2))

/-- Information content of the generated `translations.h`
(`_gen_translations_h`): buffer capacity, region-preference flag and the
total key count `I18N_KEY_COUNT`. -/
structure GeneratedH : Type where
  buffer_size : Nat
  use_psram : Bool
  key_count : Nat
deriving DecidableEq

/-- Information content of the generated `translations.cpp`
(`_gen_translations_cpp`): the master key list `I18N_KEYS`, one value table
per locale (in sorted locale order, each aligned index-for-index with the
key list), the default locale constant `TRANSLATIONS_DEFAULT_LOCALE`, the
region-preference flag and the buffer capacity `I18N_BUFFER_SIZE`. -/
structure GeneratedCpp : Type where
  keys : List Str
  tables : List (Str × List Str)
  default_locale : Str
  use_psram : Bool
  buffer_size : Nat
deriving DecidableEq

/-- One locale's emitted value table (lines 162–167): the values
`locales_map[loc][k] for k in all_keys`, in universe order.  Dict access
after validation cannot fail; the `getD` default is never reached for a
validated locale. -/
def locale_table (all_keys : List Str) (kv : FlatMap) : List Str :=
  all_keys.map (fun k => (alookup kv k).getD [])

/-- `_gen_translations_h`. -/
def gen_translations_h (all_keys : List Str) (use_psram : Bool) (buffer_size : Nat) :
    GeneratedH :=
  { buffer_size := buffer_size, use_psram := use_psram, key_count := all_keys.length }

/-- `_gen_translations_cpp`: validate completeness first (raising
`cv.Invalid` with the aggregated report when any locale is missing keys),
then emit the per-locale tables in sorted locale order together with the
catalog metadata. -/
def gen_translations_cpp (lm : LocalesMap) (default_locale : Str)
    (all_keys : List Str) (use_psram : Bool) (buffer_size : Nat) :
    Except Str GeneratedCpp :=
  match missing_report lm all_keys with
  | [] =>
      .ok { keys := all_keys
            tables := (List.insertionSort (· ≤ ·) (lm.map Prod.fst)).map
              (fun loc => (loc, locale_table all_keys ((alookup lm loc).getD [])))
            default_locale := default_locale
            use_psram := use_psram
            buffer_size := buffer_size }
  | _ :: _ => .error (format_missing_report (missing_report lm all_keys))

/-- One configured source document: its base name (`src.stem`), whether the
file exists on disk, and its parsed YAML content. -/
structure SourceFile : Type where
  stem : Str
  present : Bool
  data : YNode

/-- The source-loading loop of `to_code` (lines 354–364): for each source in
order, fail on the first missing file, otherwise flatten it, store it under
its stem in `locales_map` and union its keys into `all_keys_set`. -/
def load_locales : List SourceFile → LocalesMap → List Str →
    Except Str (LocalesMap × List Str)
  | [], lm, ks => .ok (lm, ks)
  | s :: rest, lm, ks =>
      if s.present then
        let flat := flatten_dict [] s.data []
        load_locales rest (dictInsert lm s.stem flat) (setUpdate ks (flat.map Prod.fst))
      else .error ("Locale file not found: ".toList ++ s.stem)

/-- `to_code` (lines 331–380), modelled from loading onward: load the
sources (failing on a missing file), sort the accumulated key set, check the
default locale is a compiled locale, generate the header, generate the
implementation (failing on incomplete locales), and only then write both
artifacts — the `.ok` payload is exactly what is written, so an error means
nothing is written. -/
def to_code (sources : List SourceFile) (default_locale : Str)
    (use_psram : Bool) (buffer_size : Nat) :
    Except Str (GeneratedH × GeneratedCpp) := do
  let (lm, ks) ← load_locales sources [] []
  let all_keys := List.insertionSort (· ≤ ·) ks
  if default_locale ∈ lm.map Prod.fst then
    let hdr := gen_translations_h all_keys use_psram buffer_size
    let cpp ← gen_translations_cpp lm default_locale all_keys use_psram buffer_size
    .ok (hdr, cpp)
  else
    .error ("default_locale not found in sources: ".toList ++ default_locale)

/-! ## Runtime model

The emitted C++ runtime of `translations.cpp`, as generated by
`_gen_translations_cpp`.  Allocation success is an environment parameter:
`psram_ok` is whether `heap_caps_malloc` (the preferred region) succeeds,
`ram_ok` whether plain `malloc` (the fallback region) succeeds.  A freshly
allocated buffer has unspecified contents; it is modelled empty, which no
claim depends on since every read is preceded by a write. -/

/-- The memory region a buffer was allocated from. -/
inductive Region : Type where
  | psram : Region
  | ram : Region
deriving DecidableEq

/-- An allocated translation buffer: its region and the C-string contents
currently stored in it. -/
structure TransBuffer : Type where
  region : Region
  content : Str
deriving DecidableEq

/-- The mutable runtime state of the emitted module: `current_loc` (never
null: initialized to `TRANSLATIONS_DEFAULT_LOCALE`, only overwritten by
non-null pointers) and `translation_buffer` (null = `none`). -/
structure RtState : Type where
  current_loc : Str
  buffer : Option TransBuffer
deriving DecidableEq

/-- Emitted `i18n_init_buffer` (lines 231–242): no-op when the buffer is
already allocated; otherwise, in the PSRAM build, try `I18N_MALLOC`
(PSRAM) and fall back to plain `malloc` on failure, and in the plain build
try `malloc` alone. -/
def i18n_init_buffer (use_psram psram_ok ram_ok : Bool)
    (buf : Option TransBuffer) : Option TransBuffer :=
  match buf with
  | some b => some b
  | none =>
      if use_psram then
        if psram_ok then some { region := Region.psram, content := [] }
        else if ram_ok then some { region := Region.ram, content := [] }
        else none
      else
        if ram_ok then some { region := Region.ram, content := [] }
        else none

/-- Emitted `i18n_cleanup_buffer` (lines 245–250): free the buffer when
allocated, no-op otherwise. -/
def i18n_cleanup_buffer : Option TransBuffer → Option TransBuffer
  | some _ => none
  | none => none

/-- Emitted `i18n_set_locale_internal` (lines 253–255):
`if (loc) current_loc = loc;`. -/
def i18n_set_locale_internal (loc : Option Str) (current_loc : Str) : Str :=
  match loc with
  | some l => l
  | none => current_loc

/-- Emitted `select_table` (lines 258–261): compare `loc` against each
compiled locale in sorted order, returning that locale's table on the first
match; fall through to the default locale's table `TABLE_<DEFAULT>`. -/
def select_table (tables : List (Str × List Str)) (default_table : List Str)
    (loc : Str) : List Str :=
  match tables with
  | [] => default_table
  | (l, t) :: rest => if loc = l then t else select_table rest default_table loc

/-- The table the generated fall-through line refers to: the table of the
default locale (which validation guarantees is among the compiled ones). -/
def default_table (g : GeneratedCpp) : List Str :=
  (alookup g.tables g.default_locale).getD []

/-- The loop of emitted `key_index_of` with its running index. -/
def key_index_of_from (keys : List Str) (key : Str) (i : Nat) : Int :=
  match keys with
  | [] => -1
  | k :: rest => if k = key then (i : Int) else key_index_of_from rest key (i + 1)

/-- Emitted `key_index_of` (lines 264–269): linear scan of `I18N_KEYS`,
`-1` when absent. -/
def key_index_of (keys : List Str) (key : Str) : Int :=
  key_index_of_from keys key 0

/-- Emitted `i18n_get_buf_internal` (lines 277–292), returning the buffer
contents after the call (the function writes into `buf`; `buf` is non-null
whenever `tr` calls it, and `n == 0` leaves it untouched).  An absent key is
copied in truncated; a present key selects the effective locale
(`loc && loc[0] ? loc : TRANSLATIONS_DEFAULT_LOCALE`), resolves its table
and copies the value at the key's index truncated to `n - 1` characters
(`strncpy` + forced terminator at `n - 1`).  The `getD` default on the
table read models the unchecked `table[idx]` access, which is in range for
every generated catalog. -/
def i18n_get_buf_internal (g : GeneratedCpp) (loc : Option Str) (key : Option Str)
    (n : Nat) (buf : Str) : Str :=
  if n = 0 then buf
  else
    match key with
    | none => []
    | some k =>
        let idx := key_index_of g.keys k
        if idx < 0 then k.take (n - 1)
        else
          let eff := match loc with
            | none => g.default_locale
            | some l => if l = [] then g.default_locale else l
          let table := select_table g.tables (default_table g) eff
          (table.getD idx.toNat []).take (n - 1)

/-- Emitted `tr` (lines 300–313): lazily initialize the buffer; when still
null return `key ? key : ""`; otherwise fill the buffer via
`i18n_get_buf_internal(current_loc, key, translation_buffer,
I18N_BUFFER_SIZE)` and return it.  Returns the state after the call and the
C string the returned pointer designates. -/
def tr (g : GeneratedCpp) (psram_ok ram_ok : Bool) (key : Option Str)
    (st : RtState) : RtState × Str :=
  let buf :=
    match st.buffer with
    | none => i18n_init_buffer g.use_psram psram_ok ram_ok none
    | some b => some b
  match buf with
  | none => ({ st with buffer := none }, key.getD [])
  | some b =>
      let c := i18n_get_buf_internal g (some st.current_loc) key g.buffer_size b.content
      ({ st with buffer := some { b with content := c } }, c)

/-- Emitted public `set_locale` (lines 316–318). -/
def set_locale (loc : Option Str) (st : RtState) : RtState :=
  { st with current_loc := i18n_set_locale_internal loc st.current_loc }

/-- Emitted public `get_locale` (lines 320–322). -/
def get_locale (st : RtState) : Str :=
  st.current_loc

/-! Section: Concrete fixtures for witnesses -/

/-- A small compiled catalog: one key, one locale, capacity 4, PSRAM
preference set. -/
def gW : GeneratedCpp :=
  { keys := ["greeting".toList]
    tables := [("en".toList, ["HelloWorld".toList])]
    default_locale := "en".toList
    use_psram := true
    buffer_size := 4 }

/-- An allocated scratch buffer. -/
def bW : TransBuffer := { region := Region.ram, content := [] }

/-- Runtime state with the buffer allocated and locale `en` active. -/
def stW : RtState := { current_loc := "en".toList, buffer := some bW }

/-- Runtime state with no buffer allocated. -/
def stNone : RtState := { current_loc := "en".toList, buffer := none }

/-- A catalog with the minimum configurable capacity 64 and an empty key
universe. -/
def gC3 : GeneratedCpp :=
  { keys := []
    tables := [("en".toList, [])]
    default_locale := "en".toList
    use_psram := false
    buffer_size := 64 }

/-- A present source document for locale `en`. -/
def srcEn : SourceFile :=
  { stem := "en".toList
    present := true
    data := .node [("greeting".toList, .leaf "Hi".toList)] }

/-- The same source document, missing on disk. -/
def srcGone : SourceFile := { srcEn with present := false }

/-- Locale mappings where `de` lacks the key `greeting`. -/
def lmBad : LocalesMap :=
  [("en".toList, [("greeting".toList, "Hi".toList)]), ("de".toList, [])]

/-! Section: Association-list and lookup lemmas -/

theorem alookup_cons_self {β : Type} (k : Str) (v : β) (rest : List (Str × β)) :
    alookup ((k, v) :: rest) k = some v := by
  unfold alookup; rw [if_pos rfl]

theorem alookup_cons_ne {β : Type} (k' k : Str) (v : β) (rest : List (Str × β))
    (h : k' ≠ k) : alookup ((k', v) :: rest) k = alookup rest k := by
  rw [show alookup ((k', v) :: rest) k
        = if k' = k then some v else alookup rest k from rfl,
     if_neg h]

theorem alookup_isSome_iff {β : Type} (m : List (Str × β)) (k : Str) :
    (alookup m k).isSome = true ↔ k ∈ m.map Prod.fst := by
  induction m with
  | nil =>
      exact iff_of_false (fun h => by simp [alookup] at h) (List.not_mem_nil k)
  | cons p rest ih =>
      obtain ⟨k', v⟩ := p
      by_cases h : k' = k
      · subst h
        rw [alookup_cons_self]
        refine iff_of_true rfl ?_
        rw [List.map_cons]
        exact List.mem_cons_self _ _
      · rw [alookup_cons_ne k' k v rest h]
        simp only [List.map_cons, List.mem_cons, ih]
        constructor
        · intro hm; exact Or.inr hm
        · rintro (rfl | hm)
          · exact absurd rfl h
          · exact hm

theorem hasKey_iff (m : FlatMap) (k : Str) :
    hasKey m k = true ↔ k ∈ m.map Prod.fst := by
  unfold hasKey; exact alookup_isSome_iff m k

theorem alookup_eq_none_iff {β : Type} (m : List (Str × β)) (k : Str) :
    alookup m k = none ↔ k ∉ m.map Prod.fst := by
  rw [← alookup_isSome_iff]
  cases alookup m k
  · exact iff_of_true rfl (fun h => by cases h)
  · exact iff_of_false (fun h => by cases h) (fun h => h rfl)

theorem select_table_of_alookup (tables : List (Str × List Str)) (d t : List Str)
    (l : Str) (h : alookup tables l = some t) :
    select_table tables d l = t := by
  induction tables with
  | nil => simp [alookup] at h
  | cons p rest ih =>
      obtain ⟨l', t'⟩ := p
      by_cases hl : l' = l
      · subst hl
        simp [alookup] at h
        simp [select_table, h]
      · simp [alookup, hl] at h
        simp [select_table, Ne.symm hl, ih h]

theorem select_table_of_none (tables : List (Str × List Str)) (d : List Str)
    (l : Str) (h : alookup tables l = none) :
    select_table tables d l = d := by
  induction tables with
  | nil => simp [select_table]
  | cons p rest ih =>
      obtain ⟨l', t'⟩ := p
      by_cases hl : l' = l
      · subst hl; simp [alookup] at h
      · simp [alookup, hl] at h
        simp [select_table, Ne.symm hl, ih h]

theorem key_index_of_from_of_not_mem (keys : List Str) (key : Str) (i : Nat)
    (h : key ∉ keys) : key_index_of_from keys key i = -1 := by
  induction keys generalizing i with
  | nil => rfl
  | cons k rest ih =>
      simp only [List.mem_cons, not_or] at h
      simp [key_index_of_from, Ne.symm h.1, ih i.succ h.2]

theorem key_index_of_of_not_mem (keys : List Str) (key : Str) (h : key ∉ keys) :
    key_index_of keys key = -1 :=
  key_index_of_from_of_not_mem keys key 0 h

theorem key_index_of_from_nonneg (keys : List Str) (key : Str) (i : Nat)
    (h : key ∈ keys) : 0 ≤ key_index_of_from keys key i := by
  induction keys generalizing i with
  | nil => simp at h
  | cons k rest ih =>
      by_cases hk : k = key
      · simp [key_index_of_from, hk]
      · simp only [List.mem_cons] at h
        rcases h with h | h
        · exact absurd h.symm hk
        · simpa [key_index_of_from, hk] using ih i.succ h

theorem key_index_of_nonneg (keys : List Str) (key : Str) (h : key ∈ keys) :
    0 ≤ key_index_of keys key :=
  key_index_of_from_nonneg keys key 0 h

theorem dictInsert_map_fst {β : Type} (m : List (Str × β)) (k : Str) (v : β)
    (x : Str) :
    x ∈ (dictInsert m k v).map Prod.fst ↔ x ∈ m.map Prod.fst ∨ x = k := by
  induction m with
  | nil =>
      simp only [dictInsert, List.map_cons, List.map_nil, List.mem_singleton,
        List.not_mem_nil, false_or]
  | cons p rest ih =>
      obtain ⟨k', v'⟩ := p
      by_cases h : k' = k
      · subst h
        show x ∈ (if k' = k' then (k', v) :: rest else _).map Prod.fst ↔ _
        rw [if_pos rfl]
        simp only [List.map_cons, List.mem_cons]
        constructor
        · rintro (rfl | hx)
          · exact Or.inr rfl
          · exact Or.inl (Or.inr hx)
        · rintro ((rfl | hx) | rfl)
          · exact Or.inl rfl
          · exact Or.inr hx
          · exact Or.inl rfl
      · show x ∈ (if k' = k then _ else (k', v') :: dictInsert rest k v).map Prod.fst ↔ _
        rw [if_neg h]
        simp only [List.map_cons, List.mem_cons, ih]
        constructor
        · rintro (rfl | hx | rfl)
          · exact Or.inl (Or.inl rfl)
          · exact Or.inl (Or.inr hx)
          · exact Or.inr rfl
        · rintro ((rfl | hx) | rfl)
          · exact Or.inl rfl
          · exact Or.inr (Or.inl hx)
          · exact Or.inr (Or.inr rfl)

/-- Distinct dict keys determine their values: in any list whose first
components are duplicate-free, two entries with the same key coincide. -/
theorem nodup_fst_eq {β : Type} (m : List (Str × β))
    (hnd : (m.map Prod.fst).Nodup) (a : Str) (b c : β)
    (hb : (a, b) ∈ m) (hc : (a, c) ∈ m) : b = c := by
  induction m with
  | nil => simp at hb
  | cons p rest ih =>
      obtain ⟨a', d⟩ := p
      simp only [List.map_cons, List.nodup_cons] at hnd
      simp only [List.mem_cons, Prod.mk.injEq] at hb hc
      rcases hb with ⟨ha, hbv⟩ | hb <;> rcases hc with ⟨ha', hcv⟩ | hc
      · rw [hbv, hcv]
      · exfalso
        apply hnd.1
        rw [← ha]
        exact List.mem_map_of_mem Prod.fst hc
      · exfalso
        apply hnd.1
        rw [← ha']
        exact List.mem_map_of_mem Prod.fst hb
      · exact ih hnd.2 hb hc

/-! Section: Key-set and key-universe lemmas -/

theorem mem_setInsert (s : List Str) (k x : Str) :
    x ∈ setInsert s k ↔ x ∈ s ∨ x = k := by
  unfold setInsert
  by_cases h : k ∈ s
  · rw [if_pos h]
    constructor
    · exact Or.inl
    · rintro (hx | rfl)
      · exact hx
      · exact h
  · rw [if_neg h]
    simp [List.mem_append]

theorem setInsert_nodup (s : List Str) (k : Str) (h : s.Nodup) :
    (setInsert s k).Nodup := by
  unfold setInsert
  by_cases hk : k ∈ s
  · rwa [if_pos hk]
  · rw [if_neg hk]
    simpa [List.nodup_append] using ⟨h, hk⟩

theorem mem_setUpdate (s : List Str) (ks : List Str) (x : Str) :
    x ∈ setUpdate s ks ↔ x ∈ s ∨ x ∈ ks := by
  induction ks generalizing s with
  | nil => simp [setUpdate]
  | cons k rest ih =>
      unfold setUpdate at *
      rw [List.foldl_cons, ih, mem_setInsert]
      simp [or_assoc]

theorem setUpdate_nodup (s : List Str) (ks : List Str) (h : s.Nodup) :
    (setUpdate s ks).Nodup := by
  induction ks generalizing s with
  | nil => exact h
  | cons k rest ih =>
      unfold setUpdate at *
      rw [List.foldl_cons]
      exact ih _ (setInsert_nodup s k h)

theorem mem_keySet (lm : LocalesMap) (x : Str) :
    x ∈ keySet lm ↔ ∃ p ∈ lm, x ∈ p.2.map Prod.fst := by
  suffices h : ∀ acc, x ∈ lm.foldl (fun acc p => setUpdate acc (p.2.map Prod.fst)) acc ↔
      x ∈ acc ∨ ∃ p ∈ lm, x ∈ p.2.map Prod.fst by
    have := h []
    simpa [keySet] using this
  induction lm with
  | nil => intro acc; simp
  | cons p rest ih =>
      intro acc
      rw [List.foldl_cons, ih, mem_setUpdate]
      simp [or_assoc]

theorem keySet_nodup (lm : LocalesMap) : (keySet lm).Nodup := by
  suffices h : ∀ acc : List Str, acc.Nodup →
      (lm.foldl (fun acc p => setUpdate acc (p.2.map Prod.fst)) acc).Nodup from
    h [] List.nodup_nil
  induction lm with
  | nil => intro acc h; exact h
  | cons p rest ih =>
      intro acc h
      rw [List.foldl_cons]
      exact ih _ (setUpdate_nodup acc _ h)

theorem key_universe_sorted (lm : LocalesMap) :
    (key_universe lm).Sorted (· ≤ ·) :=
  List.sorted_insertionSort _ _

theorem key_universe_nodup (lm : LocalesMap) : (key_universe lm).Nodup :=
  (List.perm_insertionSort _ _).nodup_iff.mpr (keySet_nodup lm)

theorem mem_key_universe (lm : LocalesMap) (x : Str) :
    x ∈ key_universe lm ↔ ∃ p ∈ lm, hasKey p.2 x = true := by
  unfold key_universe
  rw [(List.perm_insertionSort _ _).mem_iff, mem_keySet]
  constructor
  · rintro ⟨p, hp, hx⟩
    exact ⟨p, hp, (hasKey_iff p.2 x).mpr hx⟩
  · rintro ⟨p, hp, hx⟩
    exact ⟨p, hp, (hasKey_iff p.2 x).mp hx⟩

/-! Section: Loader lemmas -/

theorem load_locales_error_of_missing (sources : List SourceFile)
    (lm0 : LocalesMap) (ks0 : List Str)
    (h : ∃ s ∈ sources, s.present = false) :
    ∃ e, load_locales sources lm0 ks0 = .error e := by
  induction sources generalizing lm0 ks0 with
  | nil => simp at h
  | cons s rest ih =>
      obtain ⟨t, ht, hpres⟩ := h
      rcases List.mem_cons.mp ht with rfl | ht'
      · refine ⟨"Locale file not found: ".toList ++ t.stem, ?_⟩
        simp [load_locales, hpres]
      · by_cases hp : s.present
        · simpa [load_locales, hp] using ih _ _ ⟨t, ht', hpres⟩
        · refine ⟨"Locale file not found: ".toList ++ s.stem, ?_⟩
          simp [load_locales, hp]

theorem load_locales_ok_present (sources : List SourceFile)
    (lm0 : LocalesMap) (ks0 : List Str) (lm : LocalesMap) (ks : List Str)
    (h : load_locales sources lm0 ks0 = .ok (lm, ks)) :
    ∀ s ∈ sources, s.present = true := by
  induction sources generalizing lm0 ks0 with
  | nil => intro s hs; simp at hs
  | cons s rest ih =>
      intro t ht
      by_cases hp : s.present
      · rcases List.mem_cons.mp ht with rfl | ht'
        · exact hp
        · exact ih _ _ (by simpa [load_locales, hp] using h) t ht'
      · simp [load_locales, hp] at h

theorem load_locales_ok_stems (sources : List SourceFile)
    (lm0 : LocalesMap) (ks0 : List Str) (lm : LocalesMap) (ks : List Str)
    (h : load_locales sources lm0 ks0 = .ok (lm, ks)) (x : Str) :
    x ∈ lm.map Prod.fst ↔ x ∈ lm0.map Prod.fst ∨ x ∈ sources.map SourceFile.stem := by
  induction sources generalizing lm0 ks0 with
  | nil =>
      simp only [load_locales, Except.ok.injEq, Prod.mk.injEq] at h
      rw [← h.1]
      simp
  | cons s rest ih =>
      by_cases hp : s.present
      · have h' := ih (dictInsert lm0 s.stem (flatten_dict [] s.data []))
          (setUpdate ks0 ((flatten_dict [] s.data []).map Prod.fst))
          (by simpa [load_locales, hp] using h)
        rw [h', dictInsert_map_fst]
        simp only [List.map_cons, List.mem_cons]
        tauto
      · simp [load_locales, hp] at h

/-! Section: Validation-report lemmas -/

theorem mem_locale_missing (all_keys : List Str) (kv : FlatMap) (k : Str) :
    k ∈ locale_missing all_keys kv ↔ k ∈ all_keys ∧ hasKey kv k = false := by
  unfold locale_missing
  rw [List.mem_filter]
  constructor
  · rintro ⟨hm, hb⟩
    exact ⟨hm, by cases h : hasKey kv k <;> simp [h] at hb ⊢⟩
  · rintro ⟨hm, hb⟩
    exact ⟨hm, by rw [hb]; rfl⟩

theorem mem_missing_report (lm : LocalesMap) (all_keys : List Str)
    (loc : Str) (miss : List Str) :
    (loc, miss) ∈ missing_report lm all_keys ↔
      ∃ kv, (loc, kv) ∈ lm ∧ miss = locale_missing all_keys kv ∧ miss ≠ [] := by
  unfold missing_report
  rw [List.mem_filterMap]
  constructor
  · rintro ⟨⟨l0, kv⟩, hp, hf⟩
    by_cases he : (locale_missing all_keys kv).isEmpty = true
    · simp only [he, if_pos] at hf
      cases hf
    · simp only [he, if_neg, Bool.false_eq_true, not_false_eq_true] at hf
      obtain ⟨h1, h2⟩ := Prod.mk.injEq .. ▸ Option.some.injEq .. ▸ hf
      refine ⟨kv, h1 ▸ hp, h2.symm, ?_⟩
      rw [← h2]
      intro hnil
      exact he (List.isEmpty_iff.mpr hnil)
  · rintro ⟨kv, hp, hmiss, hne⟩
    refine ⟨(loc, kv), hp, ?_⟩
    have he : (locale_missing all_keys kv).isEmpty ≠ true := by
      simp only [ne_eq, List.isEmpty_iff]
      rw [← hmiss]
      exact hne
    simp only [he, if_neg, Bool.false_eq_true, not_false_eq_true]
    rw [hmiss]

theorem gen_cpp_error_of_report (lm : LocalesMap) (default_locale : Str)
    (all_keys : List Str) (use_psram : Bool) (buffer_size : Nat)
    (h : missing_report lm all_keys ≠ []) :
    gen_translations_cpp lm default_locale all_keys use_psram buffer_size
      = .error (format_missing_report (missing_report lm all_keys)) := by
  unfold gen_translations_cpp
  cases hrep : missing_report lm all_keys with
  | nil => exact absurd hrep h
  | cons a rest => rfl

theorem gen_cpp_ok_report (lm : LocalesMap) (default_locale : Str)
    (all_keys : List Str) (use_psram : Bool) (buffer_size : Nat)
    (g : GeneratedCpp)
    (h : gen_translations_cpp lm default_locale all_keys use_psram buffer_size = .ok g) :
    missing_report lm all_keys = [] := by
  by_cases hrep : missing_report lm all_keys = []
  · exact hrep
  · rw [gen_cpp_error_of_report lm default_locale all_keys use_psram buffer_size hrep] at h
    cases h

theorem gen_cpp_ok_fields (lm : LocalesMap) (default_locale : Str)
    (all_keys : List Str) (use_psram : Bool) (buffer_size : Nat)
    (g : GeneratedCpp)
    (h : gen_translations_cpp lm default_locale all_keys use_psram buffer_size = .ok g) :
    g.default_locale = default_locale ∧ g.keys = all_keys ∧
      g.use_psram = use_psram ∧ g.buffer_size = buffer_size := by
  have hrep := gen_cpp_ok_report lm default_locale all_keys use_psram buffer_size g h
  unfold gen_translations_cpp at h
  rw [hrep] at h
  cases h
  exact ⟨rfl, rfl, rfl, rfl⟩

/-! Section: Claim C1 -/

/-- C1: if at least one locale is missing at least one key of the key
universe, the implementation generator fails with the single aggregated
report; the report contains, for every offending locale, all of that
locale's missing keys (so it never stops at the first violation), its
entries are exactly the offending locales, a locale's `missing` list is
exactly the universe keys absent from it, and no locale with a complete
key set appears in the report. -/
theorem C1_aggregated_missing_report (lm : LocalesMap) (all_keys : List Str)
    (default_locale : Str) (use_psram : Bool) (buffer_size : Nat)
    (hnd : (lm.map Prod.fst).Nodup)
    (hbad : ∃ p ∈ lm, ∃ k ∈ all_keys, hasKey p.2 k = false) :
    gen_translations_cpp lm default_locale all_keys use_psram buffer_size
        = .error (format_missing_report (missing_report lm all_keys)) ∧
    (∀ p ∈ lm, locale_missing all_keys p.2 ≠ [] →
        (p.1, locale_missing all_keys p.2) ∈ missing_report lm all_keys) ∧
    (∀ q ∈ missing_report lm all_keys,
        ∃ kv, (q.1, kv) ∈ lm ∧ q.2 = locale_missing all_keys kv ∧ q.2 ≠ []) ∧
    (∀ (kv : FlatMap) (k : Str),
        k ∈ locale_missing all_keys kv ↔ k ∈ all_keys ∧ hasKey kv k = false) ∧
    (∀ p ∈ lm, locale_missing all_keys p.2 = [] →
        ∀ miss, (p.1, miss) ∉ missing_report lm all_keys) := by
  have hmem : ∀ p ∈ lm, locale_missing all_keys p.2 ≠ [] →
      (p.1, locale_missing all_keys p.2) ∈ missing_report lm all_keys := by
    intro p hp hne
    rw [mem_missing_report]
    exact ⟨p.2, by cases p; exact hp, rfl, hne⟩
  have hrep_ne : missing_report lm all_keys ≠ [] := by
    obtain ⟨p, hp, k, hk, hkey⟩ := hbad
    have hkm : k ∈ locale_missing all_keys p.2 :=
      (mem_locale_missing all_keys p.2 k).mpr ⟨hk, hkey⟩
    exact List.ne_nil_of_mem (hmem p hp (List.ne_nil_of_mem hkm))
  refine ⟨gen_cpp_error_of_report lm default_locale all_keys use_psram buffer_size
      hrep_ne, hmem, ?_, mem_locale_missing all_keys, ?_⟩
  · rintro ⟨loc, miss⟩ hq
    exact (mem_missing_report lm all_keys loc miss).mp hq
  · intro p hp hempty miss hmiss
    obtain ⟨kv, hkv, hmeq, hne⟩ := (mem_missing_report lm all_keys p.1 miss).mp hmiss
    have : kv = p.2 := nodup_fst_eq lm hnd p.1 kv p.2 hkv (by cases p; exact hp)
    rw [this, hempty] at hmeq
    exact hne hmeq

/-! Section: Claim C2 -/

/-- C2: the key universe is the lexicographically sorted, duplicate-free
union of all locales' key sets, and every locale table built from it has
exactly one value per universe key in universe order, so position `i` of
any locale's table holds the value of the key at position `i` of the
universe. -/
theorem C2_key_universe_alignment (lm : LocalesMap) :
    (key_universe lm).Sorted (· ≤ ·) ∧
    (key_universe lm).Nodup ∧
    (∀ k, k ∈ key_universe lm ↔ ∃ p ∈ lm, hasKey p.2 k = true) ∧
    (∀ kv : FlatMap,
        (locale_table (key_universe lm) kv).length = (key_universe lm).length) ∧
    (∀ (kv : FlatMap) (i : Nat), i < (key_universe lm).length →
        (locale_table (key_universe lm) kv).getD i []
          = (alookup kv ((key_universe lm).getD i [])).getD []) := by
  refine ⟨key_universe_sorted lm, key_universe_nodup lm, mem_key_universe lm, ?_, ?_⟩
  · intro kv
    exact List.length_map _ _
  · intro kv i hi
    have hi' : i < ((key_universe lm).map (fun k => (alookup kv k).getD [])).length := by
      rw [List.length_map]
      exact hi
    show ((key_universe lm).map (fun k => (alookup kv k).getD [])).getD i [] = _
    rw [List.getD_eq_getElem _ _ hi', List.getD_eq_getElem _ _ hi]
    exact List.getElem_map _

/-- Shared characterization of `to_code`: each fatal failure mode forces an
error result, and a successful result implies every check passed and
carries both generated artifacts. -/
theorem to_code_atomic (sources : List SourceFile) (default_locale : Str)
    (use_psram : Bool) (buffer_size : Nat) :
    ((∃ s ∈ sources, s.present = false) ∨
        default_locale ∉ sources.map SourceFile.stem ∨
        (∃ lm ks, load_locales sources [] [] = .ok (lm, ks) ∧
          missing_report lm (List.insertionSort (· ≤ ·) ks) ≠ []) →
      ∃ e, to_code sources default_locale use_psram buffer_size = .error e) ∧
    (∀ hdr cpp,
        to_code sources default_locale use_psram buffer_size = .ok (hdr, cpp) →
      (∀ s ∈ sources, s.present = true) ∧
      default_locale ∈ sources.map SourceFile.stem ∧
      ∃ lm ks, load_locales sources [] [] = .ok (lm, ks) ∧
        missing_report lm (List.insertionSort (· ≤ ·) ks) = [] ∧
        hdr = gen_translations_h (List.insertionSort (· ≤ ·) ks) use_psram buffer_size ∧
        gen_translations_cpp lm default_locale (List.insertionSort (· ≤ ·) ks)
          use_psram buffer_size = .ok cpp) := by
  constructor
  · rintro (hmiss | hdl | ⟨lm, ks, hok, hrep⟩)
    · obtain ⟨e, he⟩ := load_locales_error_of_missing sources [] [] hmiss
      exact ⟨e, by simp [to_code, he, Bind.bind, Except.bind]⟩
    · cases hl : load_locales sources [] [] with
      | error e => exact ⟨e, by simp [to_code, hl, Bind.bind, Except.bind]⟩
      | ok p =>
          obtain ⟨lm, ks⟩ := p
          have hstems := load_locales_ok_stems sources [] [] lm ks hl default_locale
          have hnotin : default_locale ∉ lm.map Prod.fst := by
            rw [hstems]
            rintro (h | h)
            · simp at h
            · exact hdl h
          exact ⟨"default_locale not found in sources: ".toList ++ default_locale,
            by simp [to_code, hl, hnotin, Bind.bind, Except.bind]⟩
    · by_cases hdl : default_locale ∈ lm.map Prod.fst
      · refine ⟨format_missing_report
            (missing_report lm (List.insertionSort (· ≤ ·) ks)), ?_⟩
        simp only [to_code, hok, Bind.bind, Except.bind, if_pos hdl]
        rw [gen_cpp_error_of_report lm default_locale
          (List.insertionSort (· ≤ ·) ks) use_psram buffer_size hrep]
      · exact ⟨"default_locale not found in sources: ".toList ++ default_locale,
          by simp [to_code, hok, hdl, Bind.bind, Except.bind]⟩
  · intro hdr cpp hok
    cases hl : load_locales sources [] [] with
    | error e => simp [to_code, hl, Bind.bind, Except.bind] at hok
    | ok p =>
        obtain ⟨lm, ks⟩ := p
        refine ⟨load_locales_ok_present sources [] [] lm ks hl, ?_⟩
        by_cases hdl : default_locale ∈ lm.map Prod.fst
        · simp only [to_code, hl, Bind.bind, Except.bind, if_pos hdl] at hok
          cases hg : gen_translations_cpp lm default_locale
              (List.insertionSort (· ≤ ·) ks) use_psram buffer_size with
          | error e => rw [hg] at hok; cases hok
          | ok g =>
              rw [hg] at hok
              simp only [Except.ok.injEq, Prod.mk.injEq] at hok
              obtain ⟨hhdr, hcpp⟩ := hok
              have hstems := load_locales_ok_stems sources [] [] lm ks hl default_locale
              refine ⟨?_, lm, ks, rfl, ?_, hhdr.symm, ?_⟩
              · rcases hstems.mp hdl with h | h
                · simp at h
                · exact h
              · exact gen_cpp_ok_report lm default_locale _ use_psram buffer_size g hg
              · rw [hg, hcpp]
        · simp [to_code, hl, hdl, Bind.bind, Except.bind] at hok

/-! Section: Claim C5 -/

/-- C5: compilation is atomic with respect to its fatal failure modes.  If
a source file is missing, the default locale matches no compiled locale, or
a locale is incomplete, `to_code` returns an error, and an error means no
artifact is written: the two artifacts exist only as the payload of an `.ok`
result, which is produced only after every check has passed and both
artifacts have been generated. -/
theorem C5_compilation_atomic (sources : List SourceFile) (default_locale : Str)
    (use_psram : Bool) (buffer_size : Nat) :
    ((∃ s ∈ sources, s.present = false) ∨
        default_locale ∉ sources.map SourceFile.stem ∨
        (∃ lm ks, load_locales sources [] [] = .ok (lm, ks) ∧
          missing_report lm (List.insertionSort (· ≤ ·) ks) ≠ []) →
      ∃ e, to_code sources default_locale use_psram buffer_size = .error e) ∧
    (∀ hdr cpp,
        to_code sources default_locale use_psram buffer_size = .ok (hdr, cpp) →
      (∀ s ∈ sources, s.present = true) ∧
      default_locale ∈ sources.map SourceFile.stem ∧
      ∃ lm ks, load_locales sources [] [] = .ok (lm, ks) ∧
        missing_report lm (List.insertionSort (· ≤ ·) ks) = [] ∧
        hdr = gen_translations_h (List.insertionSort (· ≤ ·) ks) use_psram buffer_size ∧
        gen_translations_cpp lm default_locale (List.insertionSort (· ≤ ·) ks)
          use_psram buffer_size = .ok cpp) :=
  to_code_atomic sources default_locale use_psram buffer_size

/-! Section: Claim C8 -/

/-- C8: compilation fails whenever the configured default locale is not the
base name of any source document; when compilation succeeds the default
locale identifier is emitted into the catalog; and at runtime the emitted
`select_table` resolves every locale identifier that matches no compiled
locale to the default locale's table. -/
theorem C8_default_locale_resolution (sources : List SourceFile)
    (default_locale : Str) (use_psram : Bool) (buffer_size : Nat) :
    (default_locale ∉ sources.map SourceFile.stem →
      ∃ e, to_code sources default_locale use_psram buffer_size = .error e) ∧
    (∀ hdr cpp,
        to_code sources default_locale use_psram buffer_size = .ok (hdr, cpp) →
      cpp.default_locale = default_locale) ∧
    (∀ (g : GeneratedCpp) (loc : Str), loc ∉ g.tables.map Prod.fst →
      select_table g.tables (default_table g) loc = default_table g) := by
  refine ⟨?_, ?_, ?_⟩
  · intro hdl
    exact (to_code_atomic sources default_locale use_psram buffer_size).1
      (Or.inr (Or.inl hdl))
  · intro hdr cpp hok
    obtain ⟨-, -, lm, ks, -, -, -, hg⟩ :=
      (to_code_atomic sources default_locale use_psram buffer_size).2
        hdr cpp hok
    exact (gen_cpp_ok_fields lm default_locale _ use_psram buffer_size cpp hg).1
  · intro g loc hloc
    exact select_table_of_none g.tables (default_table g) loc
      ((alookup_eq_none_iff g.tables loc).mpr hloc)

/-! Section: Claim C3 -/

/-- C3 (amended): for a key absent from the key universe, with the buffer
allocated, `tr` returns the key truncated to the first `n - 1` characters
(`n` the buffer capacity), regardless of the active locale; it returns the
key exactly whenever the key fits, i.e. its length is at most `n - 1`. -/
theorem C3_unknown_key_fallback (g : GeneratedCpp) (psram_ok ram_ok : Bool)
    (key : Str) (st : RtState) (b : TransBuffer)
    (hb : st.buffer = some b) (hn : 1 ≤ g.buffer_size) (hk : key ∉ g.keys) :
    (tr g psram_ok ram_ok (some key) st).2 = key.take (g.buffer_size - 1) ∧
    (key.length ≤ g.buffer_size - 1 → (tr g psram_ok ram_ok (some key) st).2 = key) := by
  have hn0 : ¬ g.buffer_size = 0 := by omega
  have hidx : key_index_of g.keys key = -1 := key_index_of_of_not_mem g.keys key hk
  have h2 : (tr g psram_ok ram_ok (some key) st).2 = key.take (g.buffer_size - 1) := by
    simp only [tr, hb]
    show i18n_get_buf_internal g (some st.current_loc) (some key) g.buffer_size b.content
        = key.take (g.buffer_size - 1)
    unfold i18n_get_buf_internal
    rw [if_neg hn0]
    show (if key_index_of g.keys key < 0 then key.take (g.buffer_size - 1) else _)
        = key.take (g.buffer_size - 1)
    rw [hidx, if_pos (by norm_num : (-1 : Int) < 0)]
  exact ⟨h2, fun hlen => by rw [h2]; exact List.take_of_length_le hlen⟩

/-! Section: Claim C4 -/

/-- C4: for a key of the universe whose value under the active locale is
longer than the buffer capacity `n`, `tr` returns exactly the value's first
`n - 1` characters, and its length never exceeds `n - 1` (the forced
terminator at position `n - 1` is implicit in identifying a C string with
its contents). -/
theorem C4_truncation (g : GeneratedCpp) (psram_ok ram_ok : Bool)
    (key : Str) (st : RtState) (b : TransBuffer) (t : List Str)
    (hb : st.buffer = some b) (hn : 1 ≤ g.buffer_size) (hk : key ∈ g.keys)
    (hl0 : st.current_loc ≠ ([] : Str))
    (ht : alookup g.tables st.current_loc = some t)
    (hlong : g.buffer_size < (t.getD (key_index_of g.keys key).toNat []).length) :
    (tr g psram_ok ram_ok (some key) st).2
        = (t.getD (key_index_of g.keys key).toNat []).take (g.buffer_size - 1) ∧
    (tr g psram_ok ram_ok (some key) st).2.length = g.buffer_size - 1 ∧
    (tr g psram_ok ram_ok (some key) st).2.length ≤ g.buffer_size - 1 := by
  have hn0 : ¬ g.buffer_size = 0 := by omega
  have hidx : ¬ key_index_of g.keys key < 0 :=
    not_lt.mpr (key_index_of_nonneg g.keys key hk)
  have hsel : select_table g.tables (default_table g) st.current_loc = t :=
    select_table_of_alookup g.tables (default_table g) t st.current_loc ht
  have h2 : (tr g psram_ok ram_ok (some key) st).2
      = (t.getD (key_index_of g.keys key).toNat []).take (g.buffer_size - 1) := by
    simp only [tr, hb]
    show i18n_get_buf_internal g (some st.current_loc) (some key) g.buffer_size b.content
        = (t.getD (key_index_of g.keys key).toNat []).take (g.buffer_size - 1)
    unfold i18n_get_buf_internal
    rw [if_neg hn0]
    show (if key_index_of g.keys key < 0 then _
          else ((select_table g.tables (default_table g)
            (if st.current_loc = ([] : Str) then g.default_locale
             else st.current_loc)).getD (key_index_of g.keys key).toNat []).take
            (g.buffer_size - 1))
        = (t.getD (key_index_of g.keys key).toNat []).take (g.buffer_size - 1)
    rw [if_neg hidx, if_neg hl0, hsel]
  have hlen : (tr g psram_ok ram_ok (some key) st).2.length = g.buffer_size - 1 := by
    rw [h2, List.length_take]
    omega
  exact ⟨h2, hlen, by rw [hlen]⟩

/-! Section: Claim C6 -/

/-- C6: the buffer lifecycle is idempotent — `i18n_init_buffer` on an
already-allocated buffer leaves it unchanged (same buffer, no new
allocation), `i18n_cleanup_buffer` on an unallocated buffer is a no-op, a
cleanup frees an allocated buffer, and after a cleanup a subsequent init
(with allocation succeeding) allocates again. -/
theorem C6_buffer_lifecycle :
    (∀ (use_psram psram_ok ram_ok : Bool) (b : TransBuffer),
        i18n_init_buffer use_psram psram_ok ram_ok (some b) = some b) ∧
    (i18n_cleanup_buffer none = none) ∧
    (∀ b : TransBuffer, i18n_cleanup_buffer (some b) = none) ∧
    (∀ (use_psram : Bool) (b : Option TransBuffer),
        (i18n_init_buffer use_psram true true (i18n_cleanup_buffer b)).isSome = true) := by
  refine ⟨fun _ _ _ _ => rfl, rfl, fun _ => rfl, ?_⟩
  intro up b
  cases b <;> cases up <;> rfl

/-! Section: Claim C7 -/

/-- C7: with the region preference set and the buffer unallocated,
`i18n_init_buffer` allocates from PSRAM when that attempt succeeds, retries
once from regular RAM when PSRAM fails, and when both attempts fail the
buffer stays unallocated and `tr` returns the input key verbatim instead of
failing. -/
theorem C7_acquire_fallback (g : GeneratedCpp) (psram_ok ram_ok : Bool)
    (key : Str) (st : RtState)
    (hup : g.use_psram = true) (hb : st.buffer = none) :
    (psram_ok = true →
      i18n_init_buffer g.use_psram psram_ok ram_ok none
        = some { region := Region.psram, content := [] }) ∧
    (psram_ok = false → ram_ok = true →
      i18n_init_buffer g.use_psram psram_ok ram_ok none
        = some { region := Region.ram, content := [] }) ∧
    (psram_ok = false → ram_ok = false →
      i18n_init_buffer g.use_psram psram_ok ram_ok none = none ∧
      (tr g psram_ok ram_ok (some key) st).1.buffer = none ∧
      (tr g psram_ok ram_ok (some key) st).2 = key) := by
  refine ⟨?_, ?_, ?_⟩
  · rintro rfl
    simp [i18n_init_buffer, hup]
  · rintro rfl rfl
    simp [i18n_init_buffer, hup]
  · rintro rfl rfl
    refine ⟨by simp [i18n_init_buffer, hup], ?_, ?_⟩
    · simp [tr, hb, i18n_init_buffer, hup]
    · simp [tr, hb, i18n_init_buffer, hup]

/-! Section: Claim C9 -/

/-- C9: `tr` with a null key always returns the empty string — when the
buffer is allocated the buffer is set to the empty string and returned,
and when allocation has failed the literal empty string is returned. -/
theorem C9_null_key (g : GeneratedCpp) (psram_ok ram_ok : Bool) (st : RtState)
    (hn : 1 ≤ g.buffer_size) :
    (tr g psram_ok ram_ok none st).2 = [] ∧
    (∀ b, st.buffer = some b →
      (tr g psram_ok ram_ok none st).1.buffer
        = some { region := b.region, content := [] }) := by
  have hn0 : ¬ g.buffer_size = 0 := by omega
  cases hsb : st.buffer with
  | some b =>
      constructor
      · simp [tr, hsb, i18n_get_buf_internal, hn0]
      · intro b' hb'
        injection hb' with h
        subst h
        simp [tr, hsb, i18n_get_buf_internal, hn0]
  | none =>
      constructor
      · cases hinit : i18n_init_buffer g.use_psram psram_ok ram_ok none with
        | none => simp [tr, hsb, hinit]
        | some b => simp [tr, hsb, hinit, i18n_get_buf_internal, hn0]
      · intro b hb
        exact Option.noConfusion hb

/-! Section: Claim C10 -/

/-- C10: `set_locale` with a null pointer leaves the active locale
unchanged; `set_locale` with any non-null string — the empty string and
unknown identifiers included — stores that exact string, so `get_locale`
returns it; and an empty active locale is substituted by the default locale
only inside the lookup, where `i18n_get_buf_internal` behaves for the empty
locale exactly as for the default locale. -/
theorem C10_set_locale_semantics (g : GeneratedCpp) :
    (∀ st : RtState, set_locale none st = st) ∧
    (∀ (s : Str) (st : RtState), get_locale (set_locale (some s) st) = s) ∧
    (∀ (key : Option Str) (n : Nat) (buf : Str),
      i18n_get_buf_internal g (some ([] : Str)) key n buf
        = i18n_get_buf_internal g (some g.default_locale) key n buf) := by
  refine ⟨fun st => rfl, fun s st => rfl, ?_⟩
  intro key n buf
  by_cases hdl : g.default_locale = ([] : Str)
  · simp [i18n_get_buf_internal, hdl]
  · simp [i18n_get_buf_internal, hdl]

/-! Section: Witnesses and counterexample -/

/-- Witness for C1: `de` misses `greeting`, so generation fails with the
aggregated report. -/
theorem C1_aggregated_missing_report_witness :
    gen_translations_cpp lmBad "en".toList (key_universe lmBad) false 64
      = .error (format_missing_report (missing_report lmBad (key_universe lmBad))) :=
  (C1_aggregated_missing_report lmBad (key_universe lmBad) "en".toList false 64
    (by decide) (by decide)).1

/-- Witness for C2: the alignment conjunct evaluated at index 0 of the
concrete universe. -/
theorem C2_key_universe_alignment_witness :
    0 < (key_universe lmBad).length ∧
    (locale_table (key_universe lmBad) [("greeting".toList, "Hi".toList)]).getD 0 []
      = (alookup [("greeting".toList, "Hi".toList)]
          ((key_universe lmBad).getD 0 [])).getD [] :=
  ⟨by decide, (C2_key_universe_alignment lmBad).2.2.2.2
    [("greeting".toList, "Hi".toList)] 0 (by decide)⟩

/-- Counterexample to C3 as stated: with the minimum configurable capacity
64, a 64-character key absent from the universe is returned truncated to
its first 63 characters, not unchanged. -/
theorem C3_counterexample :
    List.replicate 64 'a' ∉ gC3.keys ∧
    (tr gC3 true true (some (List.replicate 64 'a'))
        { current_loc := "en".toList, buffer := some bW }).2
      ≠ List.replicate 64 'a' := by
  constructor
  · decide
  · decide

/-- Witness for the amended C3: a 2-character key absent from the universe
fits in the buffer and comes back unchanged. -/
theorem C3_unknown_key_fallback_witness :
    "xy".toList ∉ gW.keys ∧
    (tr gW false false (some "xy".toList) stW).2 = "xy".toList :=
  ⟨by decide, (C3_unknown_key_fallback gW false false "xy".toList stW bW rfl
    (by decide) (by decide)).2 (by decide)⟩

/-- Witness for C4: the 10-character value `HelloWorld` under capacity 4 is
returned as its first 3 characters. -/
theorem C4_truncation_witness :
    (tr gW true true (some "greeting".toList) stW).2 = "Hel".toList := by
  have h := (C4_truncation gW true true "greeting".toList stW bW
    ["HelloWorld".toList] rfl (by decide) (by decide) (by decide) (by decide)
    (by decide)).1
  rw [h]
  decide

/-- Witness for C5: a missing source document makes `to_code` fail, so no
artifact is produced. -/
theorem C5_compilation_atomic_witness :
    ∃ e, to_code [srcGone] "en".toList false 256 = .error e :=
  (C5_compilation_atomic [srcGone] "en".toList false 256).1
    (Or.inl ⟨srcGone, List.mem_cons_self _ _, rfl⟩)

/-- Witness for C7: with both allocation attempts failing, `tr` returns the
key verbatim. -/
theorem C7_acquire_fallback_witness :
    gW.use_psram = true ∧ stNone.buffer = none ∧
    (tr gW false false (some "greeting".toList) stNone).2 = "greeting".toList :=
  ⟨rfl, rfl, ((C7_acquire_fallback gW false false "greeting".toList stNone
    rfl rfl).2.2 rfl rfl).2.2⟩

/-- Witness for C8: a default locale naming no source makes `to_code`
fail. -/
theorem C8_default_locale_resolution_witness :
    ∃ e, to_code [srcEn] "ru".toList false 256 = .error e :=
  (C8_default_locale_resolution [srcEn] "ru".toList false 256).1 (by decide)

/-- Witness for C9: a null key yields the empty string. -/
theorem C9_null_key_witness :
    (tr gW false false none stW).2 = [] :=
  (C9_null_key gW false false stW (by decide)).1

end I18n
